import Mathlib

/-
Verification of the incremental differentially private standard scaler
(src/diffprivlib/models/standard_scaler.py).

Modelling choices.  NumPy float64 values are embedded as `RFloat`: an exact
rational together with the IEEE special values NaN, +inf and -inf.  The
arithmetic on `RFloat` follows the IEEE rules that the code exercises
(x / 0 is NaN for x = 0 and a signed infinity otherwise, inf * 0 is NaN,
NaN propagates through every operation); finite arithmetic is exact, which
is the noise-free reading of the algorithm.  Signed zero never arises in
the programs paths that the claims touch (all divisors come from
nonnegative sample counts), so a single zero is used.  NumPy vectorized
expressions are embedded index-wise: each array-valued line of the source
becomes a function from the feature index to `RFloat`, and the array it
produces is the map of that function over `List.range nFeatures`.

The external collaborators (diffprivlib.tools.nanmean, nanvar, numpy sqrt,
and sklearn _handle_zeros_in_scale) are not part of the repository source;
they are modelled from the spec as an abstract statistic source `Externals`
and a spec-modelled zero-substitution function.
-/

/-- A float64 value in the noise-free reading: NaN, a signed infinity, or an
exact rational. -/
inductive RFloat where
  | nan : RFloat
  | inf : RFloat
  | ninf : RFloat
  | fin : ℚ → RFloat
deriving DecidableEq, Repr

namespace RFloat

/-- Test used to embed np.isnan. -/
def isNan : RFloat → Bool
  | nan => true
  | _ => false

/-- IEEE addition (NaN propagates, inf + -inf is NaN, finite addition exact). -/
def add : RFloat → RFloat → RFloat
  | nan, _ => nan
  | _, nan => nan
  | inf, ninf => nan
  | ninf, inf => nan
  | inf, _ => inf
  | _, inf => inf
  | ninf, _ => ninf
  | _, ninf => ninf
  | fin a, fin b => fin (a + b)

/-- IEEE negation. -/
def neg : RFloat → RFloat
  | nan => nan
  | inf => ninf
  | ninf => inf
  | fin a => fin (-a)

/-- IEEE subtraction, as addition of the negation. -/
def sub (x y : RFloat) : RFloat := add x (neg y)

/-- IEEE multiplication (inf * 0 is NaN, signs of infinities as usual). -/
def mul : RFloat → RFloat → RFloat
  | nan, _ => nan
  | _, nan => nan
  | fin a, fin b => fin (a * b)
  | inf, inf => inf
  | inf, ninf => ninf
  | ninf, inf => ninf
  | ninf, ninf => inf
  | inf, fin b => if 0 < b then inf else if b < 0 then ninf else nan
  | fin a, inf => if 0 < a then inf else if a < 0 then ninf else nan
  | ninf, fin b => if 0 < b then ninf else if b < 0 then inf else nan
  | fin a, ninf => if 0 < a then ninf else if a < 0 then inf else nan

/-- IEEE division with a positive zero divisor: 0 / 0 is NaN, x / 0 is a
signed infinity for finite nonzero x, finite / inf is 0, inf / inf is NaN. -/
def div : RFloat → RFloat → RFloat
  | nan, _ => nan
  | _, nan => nan
  | fin a, fin b =>
      if b = 0 then (if a = 0 then nan else if 0 < a then inf else ninf)
      else fin (a / b)
  | fin _, inf => fin 0
  | fin _, ninf => fin 0
  | inf, fin b => if b < 0 then ninf else inf
  | ninf, fin b => if b < 0 then inf else ninf
  | inf, inf => nan
  | inf, ninf => nan
  | ninf, inf => nan
  | ninf, ninf => nan

instance : Add RFloat := ⟨RFloat.add⟩
instance : Neg RFloat := ⟨RFloat.neg⟩
instance : Sub RFloat := ⟨RFloat.sub⟩
instance : Mul RFloat := ⟨RFloat.mul⟩
instance : Div RFloat := ⟨RFloat.div⟩

/-- Squaring, the embedding of the NumPy elementwise ** 2. -/
def sq (x : RFloat) : RFloat := x * x

@[simp] theorem add_def (x y : RFloat) : x + y = RFloat.add x y := rfl
@[simp] theorem sub_def (x y : RFloat) : x - y = RFloat.sub x y := rfl
@[simp] theorem mul_def (x y : RFloat) : x * y = RFloat.mul x y := rfl
@[simp] theorem div_def (x y : RFloat) : x / y = RFloat.div x y := rfl
@[simp] theorem neg_def (x : RFloat) : -x = RFloat.neg x := rfl

@[simp] theorem add_fin_fin (a b : ℚ) : add (fin a) (fin b) = fin (a + b) := rfl
@[simp] theorem mul_fin_fin (a b : ℚ) : mul (fin a) (fin b) = fin (a * b) := rfl
@[simp] theorem sub_fin_fin (a b : ℚ) : sub (fin a) (fin b) = fin (a - b) := by
  simp [sub, add, neg, sub_eq_add_neg]

theorem div_fin_fin (a b : ℚ) (h : b ≠ 0) : div (fin a) (fin b) = fin (a / b) := by
  simp [div, h]

@[simp] theorem nan_add (x : RFloat) : add nan x = nan := by cases x <;> rfl
@[simp] theorem add_nan (x : RFloat) : add x nan = nan := by cases x <;> rfl
@[simp] theorem nan_mul (x : RFloat) : mul nan x = nan := by cases x <;> rfl
@[simp] theorem mul_nan (x : RFloat) : mul x nan = nan := by cases x <;> rfl
@[simp] theorem nan_div (x : RFloat) : div nan x = nan := by cases x <;> rfl
@[simp] theorem div_nan (x : RFloat) : div x nan = nan := by cases x <;> rfl

/-- Multiplying any float by an exact zero never yields a nonzero finite
value: it is 0 for finite inputs and NaN for NaN or infinite inputs. -/
theorem mul_fin_zero (x : RFloat) : mul x (fin 0) = fin 0 ∨ mul x (fin 0) = nan := by
  cases x <;> simp [mul]

end RFloat

/-- Sample counts as stored in n_samples_seen_: either a Python/NumPy integer
scalar or a per-feature int64 vector. -/
inductive Count where
  | scalar : ℕ → Count
  | vector : List ℕ → Count
deriving DecidableEq, Repr

/-- A Python value held by the estimator attributes mean_, var_ and scale_:
None, a float scalar (the first-pass initializer 0.0), or a 1-D float array. -/
inductive PyArr where
  | pynone : PyArr
  | scalar : RFloat → PyArr
  | vec : List RFloat → PyArr
deriving DecidableEq, Repr

namespace PyArr

/-- Value of the array at feature index j under NumPy broadcasting: a scalar
broadcasts to every index.  None never reaches arithmetic in the class
(configuration is immutable, so the code path that would multiply None is
unreachable); it is totalized to NaN. -/
def atF : PyArr → ℕ → RFloat
  | pynone, _ => RFloat.nan
  | scalar x, _ => x
  | vec v, j => v.getD j RFloat.nan

end PyArr

/-- A data batch: rows of float64 cells, a missing entry being NaN. -/
abbrev Batch := List (List RFloat)

/-- Number of features, X.shape[1] of a rectangular array. -/
def nFeatures (X : Batch) : ℕ := (X.headD []).length

/-- Embedding of np.sum(~np.isnan(X), axis=0) at feature j: the number of
rows whose entry j is not missing. -/
def colCount (X : Batch) (j : ℕ) : ℕ :=
  (X.filter fun r => !(r.getD j RFloat.nan).isNan).length

/-- Embedding of np.isnan(X).sum(axis=0) at feature j. -/
def nanRowCount (X : Batch) (j : ℕ) : ℕ :=
  (X.filter fun r => (r.getD j RFloat.nan).isNan).length

/-- Per-feature clipping bounds, the range argument of the statistic source. -/
abbrev RangeTy := Option (List (ℚ × ℚ))

/-- Modelled from the spec: the external privatized statistic source
(diffprivlib.tools.nanmean and nanvar, whose code is outside src/) together
with the external numpy elementwise square root.  Each statistic function
consumes a privacy budget epsilon and the clipping range and returns a
per-feature value for the batch. -/
structure Externals where
  nanmean : ℚ → RangeTy → Batch → List RFloat
  nanvar : ℚ → RangeTy → Batch → List RFloat
  sqrt : RFloat → RFloat

/-- A record of one invocation of the external statistic source, carrying the
privacy budget and range it was given. -/
inductive StatCall where
  | meanCall : ℚ → RangeTy → StatCall
  | varCall : ℚ → RangeTy → StatCall
deriving DecidableEq, Repr

/-- Modelled from the spec: sklearn _handle_zeros_in_scale (outside src/),
which replaces zero entries of the scale by 1 so that a later transform
never divides by zero. -/
def handleZerosInScale (x : RFloat) : RFloat :=
  if x = RFloat.fin 0 then RFloat.fin 1 else x

/-- Shorthand for a nonnegative integer count as a float. -/
def natF (n : ℕ) : RFloat := RFloat.fin n

/- Index-wise embedding of the vectorized lines of _incremental_mean_and_var. -/

/-- last_sum = last_mean * last_sample_count. -/
def lastSumAt (lastMean : PyArr) (cnt : List ℕ) (j : ℕ) : RFloat :=
  (lastMean.atF j).mul (natF (cnt.getD j 0))

/-- new_sum = new_mean * new_sample_count. -/
def newSumAt (newMean : List RFloat) (X : Batch) (j : ℕ) : RFloat :=
  (newMean.getD j RFloat.nan).mul (natF (colCount X j))

/-- updated_sample_count = last_sample_count + new_sample_count. -/
def updatedCountAt (cnt : List ℕ) (X : Batch) (j : ℕ) : ℕ :=
  cnt.getD j 0 + colCount X j

/-- updated_mean = (last_sum + new_sum) / updated_sample_count. -/
def updatedMeanAt (lastMean : PyArr) (cnt : List ℕ) (newMean : List RFloat)
    (X : Batch) (j : ℕ) : RFloat :=
  ((lastSumAt lastMean cnt j).add (newSumAt newMean X j)).div
    (natF (updatedCountAt cnt X j))

/-- new_unnormalized_variance = nanvar(X, ...) * new_sample_count. -/
def newUnnormVarAt (newVar : List RFloat) (X : Batch) (j : ℕ) : RFloat :=
  (newVar.getD j RFloat.nan).mul (natF (colCount X j))

/-- last_unnormalized_variance = last_variance * last_sample_count. -/
def lastUnnormVarAt (lastVar : PyArr) (cnt : List ℕ) (j : ℕ) : RFloat :=
  (lastVar.atF j).mul (natF (cnt.getD j 0))

/-- last_over_new_count = last_sample_count / new_sample_count, a float true
division that yields inf or NaN when the new count is zero. -/
def lastOverNewCountAt (cnt : List ℕ) (X : Batch) (j : ℕ) : RFloat :=
  (natF (cnt.getD j 0)).div (natF (colCount X j))

/-- The unguarded Chan-Golub-LeVeque combination
last_unnormalized_variance + new_unnormalized_variance +
last_over_new_count / updated_sample_count *
(last_sum / last_over_new_count - new_sum) ** 2. -/
def updatedUnnormVarRawAt (lastMean lastVar : PyArr) (cnt : List ℕ)
    (newMean newVar : List RFloat) (X : Batch) (j : ℕ) : RFloat :=
  ((lastUnnormVarAt lastVar cnt j).add (newUnnormVarAt newVar X j)).add
    (((lastOverNewCountAt cnt X j).div (natF (updatedCountAt cnt X j))).mul
      (RFloat.sq ((lastSumAt lastMean cnt j).div
        (lastOverNewCountAt cnt X j) |>.sub (newSumAt newMean X j))))

/-- The combination after the mask updated_unnormalized_variance[zeros] =
new_unnormalized_variance[zeros], where zeros = (last_sample_count == 0). -/
def updatedUnnormVarAt (lastMean lastVar : PyArr) (cnt : List ℕ)
    (newMean newVar : List RFloat) (X : Batch) (j : ℕ) : RFloat :=
  if cnt.getD j 0 = 0 then newUnnormVarAt newVar X j
  else updatedUnnormVarRawAt lastMean lastVar cnt newMean newVar X j

/-- updated_variance = updated_unnormalized_variance / updated_sample_count. -/
def updatedVarAt (lastMean lastVar : PyArr) (cnt : List ℕ)
    (newMean newVar : List RFloat) (X : Batch) (j : ℕ) : RFloat :=
  (updatedUnnormVarAt lastMean lastVar cnt newMean newVar X j).div
    (natF (updatedCountAt cnt X j))

/-- Embedding of _incremental_mean_and_var.  Returns the updated mean, the
updated variance (none when last_variance is None), the updated sample count,
and the list of statistic-source invocations the call makes, in order. -/
def incrementalMeanAndVar (ext : Externals) (X : Batch) (epsilon : ℚ)
    (rng : RangeTy) (lastMean lastVariance : PyArr) (cnt : List ℕ) :
    List RFloat × Option (List RFloat) × List ℕ × List StatCall :=
  let nf := cnt.length
  let newMean := ext.nanmean epsilon rng X
  let updatedMean := (List.range nf).map (updatedMeanAt lastMean cnt newMean X)
  let updatedCnt := (List.range nf).map (updatedCountAt cnt X)
  match lastVariance with
  | PyArr.pynone => (updatedMean, none, updatedCnt, [StatCall.meanCall epsilon rng])
  | lastVar =>
      let newVar := ext.nanvar epsilon rng X
      (updatedMean,
       some ((List.range nf).map (updatedVarAt lastMean lastVar cnt newMean newVar X)),
       updatedCnt,
       [StatCall.meanCall epsilon rng, StatCall.varCall epsilon rng])

/-- Construction parameters of the estimator.  with_std is an Option Bool
because the Python flag distinguishes None from False (line 156 of the
source compares it with None). -/
structure Config where
  epsilon : ℚ
  range : RangeTy
  copy : Bool
  with_mean : Bool
  with_std : Option Bool
deriving DecidableEq, Repr

/-- The mutable attributes of the estimator; none means the attribute has
not been created yet (hasattr is false). -/
structure ScalerState where
  n_samples_seen_ : Option Count
  mean_ : Option PyArr
  var_ : Option PyArr
  scale_ : Option PyArr
deriving DecidableEq, Repr

/-- A freshly constructed estimator: no attribute exists yet. -/
def freshScaler : ScalerState :=
  { n_samples_seen_ := none, mean_ := none, var_ := none, scale_ := none }

/-- epsilon_0 = self.epsilon if self.with_std is None else self.epsilon / 2. -/
def epsilon0 (cfg : Config) : ℚ :=
  if cfg.with_std = none then cfg.epsilon else cfg.epsilon / 2

/-- np.ptp, the spread max - min of a count vector (natural subtraction). -/
def listMax (v : List ℕ) : ℕ := v.foldr max 0

/-- Minimum of a nonempty count vector (0 for the empty one). -/
def listMin : List ℕ → ℕ
  | [] => 0
  | h :: t => t.foldr min h

/-- np.ptp of the count vector. -/
def ptp (v : List ℕ) : ℕ := listMax v - listMin v

/-- The backward-compatibility reduction: n_samples_seen_ becomes the scalar
n_samples_seen_[0] when np.ptp(n_samples_seen_) == 0. -/
def collapseCount (v : List ℕ) : Count :=
  if ptp v = 0 then Count.scalar (v.headD 0) else Count.vector v

/-- Normalization of the count representation at the start of partial_fit: a
scalar n_samples_seen_ is broadcast by np.repeat to a vector of length
X.shape[1], an absent attribute becomes the zero vector, a vector is kept. -/
def normCount (st : ScalerState) (nf : ℕ) : List ℕ :=
  match st.n_samples_seen_ with
  | some (Count.scalar n) => List.replicate nf n
  | some (Count.vector v) => v
  | none => List.replicate nf 0

/-- First-pass initialization of mean_: 0.0 when scale_ does not exist yet,
otherwise the stored attribute. -/
def initMean (st : ScalerState) : PyArr :=
  if st.scale_ = none then PyArr.scalar (RFloat.fin 0)
  else st.mean_.getD PyArr.pynone

/-- First-pass initialization of var_: 0.0 when scale_ does not exist yet and
with_std is truthy, None when scale_ does not exist and with_std is falsy,
otherwise the stored attribute. -/
def initVar (cfg : Config) (st : ScalerState) : PyArr :=
  if st.scale_ = none then
    (if cfg.with_std = some true then PyArr.scalar (RFloat.fin 0) else PyArr.pynone)
  else st.var_.getD PyArr.pynone

/-- Embedding of StandardScaler.partial_fit.  Takes the configuration, the
external statistic source, the current attribute state and the batch; returns
the updated state and the statistic-source invocations made. -/
def partialFit (cfg : Config) (ext : Externals) (st : ScalerState) (X : Batch) :
    ScalerState × List StatCall :=
  let nf := nFeatures X
  let n0 : List ℕ := normCount st nf
  let mean0 : PyArr := initMean st
  let var0 : PyArr := initVar cfg st
  if cfg.with_mean = false ∧ cfg.with_std ≠ some true then
    let n1 := List.zipWith (fun a b => a + b) n0
      ((List.range nf).map fun j => X.length - nanRowCount X j)
    ({ n_samples_seen_ := some (collapseCount n1),
       mean_ := some PyArr.pynone,
       var_ := some PyArr.pynone,
       scale_ := some PyArr.pynone }, [])
  else
    match incrementalMeanAndVar ext X (epsilon0 cfg) cfg.range mean0 var0 n0 with
    | (um, uv, uc, calls) =>
        ({ n_samples_seen_ := some (collapseCount uc),
           mean_ := some (PyArr.vec um),
           var_ := match uv with
                   | none => some PyArr.pynone
                   | some w => some (PyArr.vec w),
           scale_ := if cfg.with_std = some true then
                       some (PyArr.vec ((uv.getD []).map fun x =>
                         handleZerosInScale (ext.sqrt x)))
                     else some PyArr.pynone }, calls)

/-- Column j of the batch. -/
def colEntries (X : Batch) (j : ℕ) : List RFloat :=
  X.map fun r => r.getD j RFloat.nan

/-- Sum of a list of floats. -/
def finSum (l : List RFloat) : RFloat := l.foldr RFloat.add (RFloat.fin 0)

/-- Modelled from the spec: the noise-free (exact) per-feature mean that the
testable-properties section substitutes for the privatized source; the mean
of the non-missing entries of feature j. -/
def exactNanmeanAt (X : Batch) (j : ℕ) : RFloat :=
  let obs := (colEntries X j).filter fun x => !x.isNan
  (finSum obs).div (natF obs.length)

/-- The noise-free per-feature mean vector. -/
def exactNanmean (X : Batch) : List RFloat :=
  (List.range (nFeatures X)).map (exactNanmeanAt X)

/-- Modelled from the spec: the noise-free per-feature population variance of
the non-missing entries of feature j. -/
def exactNanvarAt (X : Batch) (j : ℕ) : RFloat :=
  let obs := (colEntries X j).filter fun x => !x.isNan
  let m := exactNanmeanAt X j
  (finSum (obs.map fun x => RFloat.sq (x.sub m))).div (natF obs.length)

/-- The noise-free per-feature variance vector. -/
def exactNanvar (X : Batch) : List RFloat :=
  (List.range (nFeatures X)).map (exactNanvarAt X)

/-- Modelled from the spec: a concrete noise-free instantiation of the
external collaborators, with the identity in place of the square root (the
claims evaluated with it do not constrain the square root). -/
def exactExt : Externals :=
  { nanmean := fun _ _ X => exactNanmean X,
    nanvar := fun _ _ X => exactNanvar X,
    sqrt := fun x => x }

/-- Folding partial_fit over a sequence of batches from a given state,
concatenating the statistic-source invocation records. -/
def runBatches (cfg : Config) (ext : Externals) (st : ScalerState) :
    List Batch → ScalerState × List StatCall
  | [] => (st, [])
  | X :: Xs =>
      let r := partialFit cfg ext st X
      let rest := runBatches cfg ext r.1 Xs
      (rest.1, r.2 ++ rest.2)

/- Helper lemmas on lists and the count representation. -/

theorem getD_range_map {α : Type} (f : ℕ → α) (n j : ℕ) (d : α) (h : j < n) :
    ((List.range n).map f).getD j d = f j := by
  rw [List.getD_eq_getElem?_getD]
  simp [List.getElem?_range, h]

theorem getD_replicate {α : Type} (a d : α) (n j : ℕ) (h : j < n) :
    (List.replicate n a).getD j d = a := by
  rw [List.getD_eq_getElem?_getD]
  simp [List.getElem?_replicate, h]

theorem le_listMax (v : List ℕ) : ∀ x ∈ v, x ≤ listMax v := by
  induction v with
  | nil => intro x hx; cases hx
  | cons h t ih =>
      intro x hx
      rcases List.mem_cons.mp hx with rfl | hx
      · exact le_max_left _ _
      · exact le_trans (ih x hx) (le_max_right _ _)

theorem foldr_min_le_init (t : List ℕ) (i : ℕ) : t.foldr min i ≤ i := by
  induction t with
  | nil => exact le_refl _
  | cons h t ih => exact le_trans (min_le_right _ _) ih

theorem foldr_min_le_mem (t : List ℕ) (i : ℕ) : ∀ x ∈ t, t.foldr min i ≤ x := by
  induction t with
  | nil => intro x hx; cases hx
  | cons h t ih =>
      intro x hx
      rcases List.mem_cons.mp hx with rfl | hx
      · exact min_le_left _ _
      · exact le_trans (min_le_right _ _) (ih x hx)

theorem listMin_le (v : List ℕ) : ∀ x ∈ v, listMin v ≤ x := by
  cases v with
  | nil => intro x hx; cases hx
  | cons h t =>
      intro x hx
      rcases List.mem_cons.mp hx with rfl | hx
      · exact foldr_min_le_init t x
      · exact foldr_min_le_mem t h x hx

theorem all_eq_of_ptp_eq_zero (v : List ℕ) (h : ptp v = 0) :
    ∀ x ∈ v, x = v.headD 0 := by
  intro x hx
  have hmax := le_listMax v x hx
  have hmle : listMax v ≤ listMin v := Nat.sub_eq_zero_iff_le.mp h
  cases v with
  | nil => cases hx
  | cons a t =>
      have ha : a ∈ a :: t := List.mem_cons_self a t
      have h1 : x ≤ a := le_trans hmax (le_trans hmle (listMin_le _ a ha))
      have h2 : a ≤ x :=
        le_trans (le_listMax _ a ha) (le_trans hmle (listMin_le _ x hx))
      simpa using le_antisymm h1 h2

theorem foldr_min_const (t : List ℕ) (c : ℕ) (h : ∀ x ∈ t, x = c) :
    t.foldr min c = c := by
  induction t with
  | nil => rfl
  | cons a t ih =>
      have ha : a = c := h a (List.mem_cons_self a t)
      have ht : ∀ x ∈ t, x = c := fun x hx => h x (List.mem_cons.mpr (Or.inr hx))
      simp [ha, ih ht]

theorem listMax_le (v : List ℕ) (c : ℕ) (h : ∀ x ∈ v, x ≤ c) : listMax v ≤ c := by
  induction v with
  | nil => exact Nat.zero_le c
  | cons a t ih =>
      have := h a (List.mem_cons_self a t)
      have ht := ih fun x hx => h x (List.mem_cons.mpr (Or.inr hx))
      simp [listMax] at ht ⊢
      exact ⟨this, ht⟩

theorem ptp_eq_zero_of_const (v : List ℕ) (c : ℕ) (h : ∀ x ∈ v, x = c) :
    ptp v = 0 := by
  cases v with
  | nil => rfl
  | cons a t =>
      have ha : a = c := h a (List.mem_cons_self a t)
      have ht : ∀ x ∈ t, x = c := fun x hx => h x (List.mem_cons.mpr (Or.inr hx))
      have hmin : listMin (a :: t) = c := by
        simp [listMin, ha, foldr_min_const t c ht]
      have hmax : listMax (a :: t) ≤ c :=
        listMax_le _ c fun x hx => le_of_eq (h x hx)
      simp [ptp, hmin, Nat.sub_eq_zero_iff_le.mpr hmax]

theorem colCount_add_nanRowCount (X : Batch) (j : ℕ) :
    nanRowCount X j + colCount X j = X.length := by
  have := List.length_eq_length_filter_add (l := X)
    (fun r => (r.getD j RFloat.nan).isNan)
  unfold colCount nanRowCount
  omega

/- Claim theorems on the incremental combiner. -/

/-- C2: for every merge, the combiner computes per feature the new count as
the number of non-missing entries of that feature in the batch (colCount),
the updated count as countOld + countNew, and the updated mean as
(meanOld * countOld + meanNew * countNew) / countUpdated, where meanNew is
the value delivered by the privatized mean source. -/
theorem mean_and_count_merge_formula (ext : Externals) (X : Batch) (eps : ℚ)
    (rng : RangeTy) (m v : PyArr) (cnt : List ℕ) (j : ℕ) (hj : j < cnt.length) :
    (incrementalMeanAndVar ext X eps rng m v cnt).2.2.1.getD j 0 =
      cnt.getD j 0 + colCount X j ∧
    (incrementalMeanAndVar ext X eps rng m v cnt).1.getD j RFloat.nan =
      (((m.atF j).mul (natF (cnt.getD j 0))).add
        (((ext.nanmean eps rng X).getD j RFloat.nan).mul
          (natF (colCount X j)))).div
        (natF (cnt.getD j 0 + colCount X j)) := by
  cases v <;>
    simp [incrementalMeanAndVar, List.getElem?_range, hj, updatedMeanAt,
      lastSumAt, newSumAt, updatedCountAt]

/-- C2 witness: a concrete evaluation of the merge formula theorem. -/
theorem mean_and_count_merge_formula_witness :
    (incrementalMeanAndVar exactExt [[RFloat.fin 4]] 1 none
        (PyArr.vec [RFloat.fin 2]) PyArr.pynone [3]).2.2.1.getD 0 0 =
      [3].getD 0 0 + colCount [[RFloat.fin 4]] 0 ∧
    (incrementalMeanAndVar exactExt [[RFloat.fin 4]] 1 none
        (PyArr.vec [RFloat.fin 2]) PyArr.pynone [3]).1.getD 0 RFloat.nan =
      ((((PyArr.vec [RFloat.fin 2]).atF 0).mul (natF ([3].getD 0 0))).add
        (((exactExt.nanmean 1 none [[RFloat.fin 4]]).getD 0 RFloat.nan).mul
          (natF (colCount [[RFloat.fin 4]] 0)))).div
        (natF ([3].getD 0 0 + colCount [[RFloat.fin 4]] 0)) :=
  mean_and_count_merge_formula exactExt [[RFloat.fin 4]] 1 none
    (PyArr.vec [RFloat.fin 2]) PyArr.pynone [3] 0 (by decide)

/-- C7: for a feature whose total observation count is zero (no prior
observations and none in the batch), the merged mean is the floating-point
NaN, never a silently numeric value. -/
theorem mean_nan_on_zero_total_count (ext : Externals) (X : Batch) (eps : ℚ)
    (rng : RangeTy) (m v : PyArr) (cnt : List ℕ) (j : ℕ) (hj : j < cnt.length)
    (h0 : cnt.getD j 0 = 0) (hn : colCount X j = 0) :
    (incrementalMeanAndVar ext X eps rng m v cnt).1.getD j RFloat.nan =
      RFloat.nan := by
  have hm : (incrementalMeanAndVar ext X eps rng m v cnt).1.getD j RFloat.nan =
      updatedMeanAt m cnt (ext.nanmean eps rng X) X j := by
    cases v <;> simp [incrementalMeanAndVar, List.getElem?_range, hj]
  rw [hm]
  unfold updatedMeanAt lastSumAt newSumAt updatedCountAt
  rw [h0, hn]
  cases m.atF j <;> cases (ext.nanmean eps rng X).getD j RFloat.nan <;>
    simp [natF, RFloat.mul, RFloat.add, RFloat.div]

/-- C7 witness: a concrete all-missing feature yields a NaN mean. -/
theorem mean_nan_on_zero_total_count_witness :
    (incrementalMeanAndVar exactExt [[RFloat.nan]] 1 none
        (PyArr.scalar (RFloat.fin 0)) PyArr.pynone [0]).1.getD 0 RFloat.nan =
      RFloat.nan :=
  mean_nan_on_zero_total_count exactExt [[RFloat.nan]] 1 none
    (PyArr.scalar (RFloat.fin 0)) PyArr.pynone [0] 0 (by decide) (by decide)
    (by decide)

/-- Scalar-level form of the Chan-Golub-LeVeque merge: with positive old and
new counts and finite inputs, the merged variance equals the spec formula. -/
theorem varAt_formula (m v : PyArr) (cnt : List ℕ) (nm nv : List RFloat)
    (X : Batch) (j : ℕ) (mo vo mn vn : ℚ) (co cn : ℕ)
    (hm : m.atF j = RFloat.fin mo) (hvv : v.atF j = RFloat.fin vo)
    (hnm : nm.getD j RFloat.nan = RFloat.fin mn)
    (hnv : nv.getD j RFloat.nan = RFloat.fin vn)
    (hco : cnt.getD j 0 = co) (hcn : colCount X j = cn)
    (h1 : 0 < co) (h2 : 0 < cn) :
    updatedVarAt m v cnt nm nv X j =
      RFloat.fin ((vo * (co : ℚ) + vn * (cn : ℚ) +
        ((co : ℚ) / (cn : ℚ)) / ((co : ℚ) + (cn : ℚ)) *
          (mo * (co : ℚ) / ((co : ℚ) / (cn : ℚ)) - mn * (cn : ℚ)) ^ 2) /
        ((co : ℚ) + (cn : ℚ))) := by
  have hcoQ : ((co : ℚ)) ≠ 0 := Nat.cast_ne_zero.mpr (Nat.pos_iff_ne_zero.mp h1)
  have hcnQ : ((cn : ℚ)) ≠ 0 := Nat.cast_ne_zero.mpr (Nat.pos_iff_ne_zero.mp h2)
  have hcUQ : (((co + cn : ℕ)) : ℚ) ≠ 0 := Nat.cast_ne_zero.mpr (by omega)
  have hrQ : (co : ℚ) / (cn : ℚ) ≠ 0 := div_ne_zero hcoQ hcnQ
  unfold updatedVarAt updatedUnnormVarAt updatedUnnormVarRawAt lastUnnormVarAt
    newUnnormVarAt lastOverNewCountAt lastSumAt newSumAt updatedCountAt natF
  rw [hm, hvv, hnm, hnv, hco, hcn]
  rw [if_neg (by omega)]
  rw [RFloat.div_fin_fin _ _ hcnQ]
  simp only [RFloat.mul_fin_fin, RFloat.add_fin_fin, RFloat.sq, RFloat.mul_def,
    RFloat.sub_def]
  rw [RFloat.div_fin_fin _ _ hrQ]
  simp only [RFloat.sub_fin_fin, RFloat.mul_fin_fin]
  rw [RFloat.div_fin_fin _ _ hcUQ, RFloat.mul_fin_fin, RFloat.add_fin_fin,
    RFloat.div_fin_fin _ _ hcUQ]
  congr 1
  push_cast
  ring

/-- C1: for every merge with variance tracked, the combiner computes per
feature with positive old and new counts the Chan-Golub-LeVeque update
unnormVarUpdated = varOld * countOld + varNew * countNew +
(ratio / countUpdated) * (sumOld / ratio - sumNew) ^ 2 with
ratio = countOld / countNew, and varUpdated = unnormVarUpdated /
countUpdated; for a feature with zero old count it discards the correction
term and takes the new unnormalized variance directly. -/
theorem variance_merge_formula (ext : Externals) (X : Batch) (eps : ℚ)
    (rng : RangeTy) (m v : PyArr) (cnt : List ℕ) (j : ℕ)
    (mo vo mn vn : ℚ)
    (hj : j < cnt.length) (hv : v ≠ PyArr.pynone)
    (hm : m.atF j = RFloat.fin mo) (hvv : v.atF j = RFloat.fin vo)
    (hnm : (ext.nanmean eps rng X).getD j RFloat.nan = RFloat.fin mn)
    (hnv : (ext.nanvar eps rng X).getD j RFloat.nan = RFloat.fin vn) :
    ∃ vars, (incrementalMeanAndVar ext X eps rng m v cnt).2.1 = some vars ∧
      vars.getD j RFloat.nan =
        updatedVarAt m v cnt (ext.nanmean eps rng X) (ext.nanvar eps rng X) X j ∧
      updatedVarAt m v cnt (ext.nanmean eps rng X) (ext.nanvar eps rng X) X j =
        (updatedUnnormVarAt m v cnt (ext.nanmean eps rng X)
          (ext.nanvar eps rng X) X j).div (natF (updatedCountAt cnt X j)) ∧
      (cnt.getD j 0 = 0 →
        updatedUnnormVarAt m v cnt (ext.nanmean eps rng X)
            (ext.nanvar eps rng X) X j =
          newUnnormVarAt (ext.nanvar eps rng X) X j) ∧
      (0 < cnt.getD j 0 → 0 < colCount X j →
        vars.getD j RFloat.nan =
          RFloat.fin ((vo * (cnt.getD j 0 : ℚ) + vn * (colCount X j : ℚ) +
            ((cnt.getD j 0 : ℚ) / (colCount X j : ℚ)) /
              ((cnt.getD j 0 : ℚ) + (colCount X j : ℚ)) *
              (mo * (cnt.getD j 0 : ℚ) /
                ((cnt.getD j 0 : ℚ) / (colCount X j : ℚ)) -
                mn * (colCount X j : ℚ)) ^ 2) /
            ((cnt.getD j 0 : ℚ) + (colCount X j : ℚ)))) := by
  have hsome : (incrementalMeanAndVar ext X eps rng m v cnt).2.1 =
      some ((List.range cnt.length).map
        (updatedVarAt m v cnt (ext.nanmean eps rng X) (ext.nanvar eps rng X) X)) := by
    cases v with
    | pynone => exact absurd rfl hv
    | scalar x => rfl
    | vec w => rfl
  refine ⟨_, hsome, getD_range_map _ _ _ _ hj, rfl, ?_, ?_⟩
  · intro h
    unfold updatedUnnormVarAt
    rw [if_pos h]
  · intro hc1 hc2
    rw [getD_range_map _ _ _ _ hj]
    exact varAt_formula m v cnt _ _ X j mo vo mn vn _ _ hm hvv hnm hnv rfl rfl
      hc1 hc2

/-- C1 witness: a concrete merge with positive counts, evaluated. -/
theorem variance_merge_formula_witness :
    ∃ vars, (incrementalMeanAndVar exactExt [[RFloat.fin 7]] 1 none
        (PyArr.vec [RFloat.fin 5]) (PyArr.vec [RFloat.fin 4]) [3]).2.1 =
          some vars ∧
      vars.getD 0 RFloat.nan =
        updatedVarAt (PyArr.vec [RFloat.fin 5]) (PyArr.vec [RFloat.fin 4]) [3]
          (exactExt.nanmean 1 none [[RFloat.fin 7]])
          (exactExt.nanvar 1 none [[RFloat.fin 7]]) [[RFloat.fin 7]] 0 ∧
      updatedVarAt (PyArr.vec [RFloat.fin 5]) (PyArr.vec [RFloat.fin 4]) [3]
          (exactExt.nanmean 1 none [[RFloat.fin 7]])
          (exactExt.nanvar 1 none [[RFloat.fin 7]]) [[RFloat.fin 7]] 0 =
        (updatedUnnormVarAt (PyArr.vec [RFloat.fin 5]) (PyArr.vec [RFloat.fin 4])
          [3] (exactExt.nanmean 1 none [[RFloat.fin 7]])
          (exactExt.nanvar 1 none [[RFloat.fin 7]]) [[RFloat.fin 7]] 0).div
          (natF (updatedCountAt [3] [[RFloat.fin 7]] 0)) ∧
      (([3] : List ℕ).getD 0 0 = 0 →
        updatedUnnormVarAt (PyArr.vec [RFloat.fin 5]) (PyArr.vec [RFloat.fin 4])
            [3] (exactExt.nanmean 1 none [[RFloat.fin 7]])
            (exactExt.nanvar 1 none [[RFloat.fin 7]]) [[RFloat.fin 7]] 0 =
          newUnnormVarAt (exactExt.nanvar 1 none [[RFloat.fin 7]])
            [[RFloat.fin 7]] 0) ∧
      (0 < ([3] : List ℕ).getD 0 0 → 0 < colCount [[RFloat.fin 7]] 0 →
        vars.getD 0 RFloat.nan =
          RFloat.fin ((4 * (([3] : List ℕ).getD 0 0 : ℚ) +
            0 * (colCount [[RFloat.fin 7]] 0 : ℚ) +
            ((([3] : List ℕ).getD 0 0 : ℚ) / (colCount [[RFloat.fin 7]] 0 : ℚ)) /
              ((([3] : List ℕ).getD 0 0 : ℚ) + (colCount [[RFloat.fin 7]] 0 : ℚ)) *
              (5 * (([3] : List ℕ).getD 0 0 : ℚ) /
                ((([3] : List ℕ).getD 0 0 : ℚ) / (colCount [[RFloat.fin 7]] 0 : ℚ)) -
                7 * (colCount [[RFloat.fin 7]] 0 : ℚ)) ^ 2) /
            ((([3] : List ℕ).getD 0 0 : ℚ) + (colCount [[RFloat.fin 7]] 0 : ℚ)))) :=
  variance_merge_formula exactExt [[RFloat.fin 7]] 1 none
    (PyArr.vec [RFloat.fin 5]) (PyArr.vec [RFloat.fin 4]) [3] 0 5 4 7 0
    (by decide) (by decide) (by decide) (by decide)
    (by with_unfolding_all rfl) (by with_unfolding_all rfl)

/-- C5 counterexample: at a concrete merge where the new batch has zero
observations of the only feature (the column is all NaN) and the prior count
is 3 with prior variance 2, the merged unnormalized variance is NaN, not the
prior unnormalized variance 6: no fallback to the old value occurs. -/
theorem variance_newcount_zero_counterexample :
    updatedUnnormVarAt (PyArr.vec [RFloat.fin 1]) (PyArr.vec [RFloat.fin 2]) [3]
        (exactExt.nanmean 1 none [[RFloat.nan]])
        (exactExt.nanvar 1 none [[RFloat.nan]]) [[RFloat.nan]] 0 = RFloat.nan ∧
    lastUnnormVarAt (PyArr.vec [RFloat.fin 2]) [3] 0 = RFloat.fin 6 ∧
    RFloat.nan ≠ RFloat.fin 6 ∧
    (incrementalMeanAndVar exactExt [[RFloat.nan]] 1 none
        (PyArr.vec [RFloat.fin 1]) (PyArr.vec [RFloat.fin 2]) [3]).2.1 =
      some [RFloat.nan] := by
  with_unfolding_all decide

/-- C5 amended: when the new-batch count of a feature is zero and the prior
count is positive, the correction term is inf * 0 = NaN, so the merged
unnormalized variance (and hence the merged variance) of that feature is NaN;
the code does not fall back to the prior unnormalized variance (the mask
only covers a zero old count). -/
theorem variance_newcount_zero_nan (ext : Externals) (X : Batch) (eps : ℚ)
    (rng : RangeTy) (m v : PyArr) (cnt : List ℕ) (j : ℕ) (mo vo : ℚ)
    (hj : j < cnt.length) (hv : v ≠ PyArr.pynone)
    (hm : m.atF j = RFloat.fin mo) (hvv : v.atF j = RFloat.fin vo)
    (hc : 0 < cnt.getD j 0) (hn : colCount X j = 0) :
    updatedUnnormVarAt m v cnt (ext.nanmean eps rng X)
        (ext.nanvar eps rng X) X j = RFloat.nan ∧
    ∃ vars, (incrementalMeanAndVar ext X eps rng m v cnt).2.1 = some vars ∧
      vars.getD j RFloat.nan = RFloat.nan := by
  have hne : cnt.getD j 0 ≠ 0 := Nat.pos_iff_ne_zero.mp hc
  have hmain : updatedUnnormVarAt m v cnt (ext.nanmean eps rng X)
      (ext.nanvar eps rng X) X j = RFloat.nan := by
    unfold updatedUnnormVarAt updatedUnnormVarRawAt lastUnnormVarAt
      newUnnormVarAt lastOverNewCountAt lastSumAt newSumAt updatedCountAt natF
    rw [if_neg hne, hn, hm, hvv]
    revert hne hc
    generalize cnt.getD j 0 = co
    intro hc hne
    have hQ0 : ¬((co : ℚ) = 0) := Nat.cast_ne_zero.mpr hne
    have hQpos : (0 : ℚ) < (co : ℚ) := by exact_mod_cast hc
    have hQnneg : ¬((co : ℚ) < 0) := not_lt_of_gt hQpos
    cases hnm : (ext.nanmean eps rng X).getD j RFloat.nan <;>
      cases hnv : (ext.nanvar eps rng X).getD j RFloat.nan <;>
        simp [RFloat.mul, RFloat.add, RFloat.div, RFloat.sub, RFloat.neg,
          RFloat.sq, hne, hc, hQ0, hQpos, hQnneg, Nat.cast_zero, mul_zero]
  refine ⟨hmain, ?_⟩
  have hsome : (incrementalMeanAndVar ext X eps rng m v cnt).2.1 =
      some ((List.range cnt.length).map
        (updatedVarAt m v cnt (ext.nanmean eps rng X) (ext.nanvar eps rng X) X)) := by
    cases v with
    | pynone => exact absurd rfl hv
    | scalar x => rfl
    | vec w => rfl
  refine ⟨_, hsome, ?_⟩
  rw [getD_range_map _ _ _ _ hj]
  unfold updatedVarAt
  rw [hmain]
  exact RFloat.nan_div _

/-- C5 amended witness: the concrete merge of the counterexample, through the
amended theorem. -/
theorem variance_newcount_zero_nan_witness :
    updatedUnnormVarAt (PyArr.vec [RFloat.fin 1]) (PyArr.vec [RFloat.fin 2]) [3]
        (exactExt.nanmean 1 none [[RFloat.nan]])
        (exactExt.nanvar 1 none [[RFloat.nan]]) [[RFloat.nan]] 0 = RFloat.nan ∧
    ∃ vars, (incrementalMeanAndVar exactExt [[RFloat.nan]] 1 none
        (PyArr.vec [RFloat.fin 1]) (PyArr.vec [RFloat.fin 2]) [3]).2.1 =
          some vars ∧
      vars.getD 0 RFloat.nan = RFloat.nan :=
  variance_newcount_zero_nan exactExt [[RFloat.nan]] 1 none
    (PyArr.vec [RFloat.fin 1]) (PyArr.vec [RFloat.fin 2]) [3] 0 1 2
    (by decide) (by decide) (by decide) (by decide) (by decide) (by decide)

/-- A concrete fully observed batch over two features. -/
def obsBatch : Batch := [[RFloat.fin 5, RFloat.fin 6]]

/-- A concrete batch whose second feature is entirely missing. -/
def missBatch : Batch := [[RFloat.fin 1, RFloat.nan], [RFloat.fin 3, RFloat.nan]]

/-- A concrete configuration with variance tracking enabled. -/
def cfgStd : Config :=
  { epsilon := 1, range := none, copy := true, with_mean := true,
    with_std := some true }

/-- C6 evaluation at a failing input: feature 1 is fully observed in the
first batch (value 6) and entirely missing in the second.  After both
partial_fit calls with the noise-free statistic source, the count of
feature 1 is the observed-only total 1 as claimed, but mean_ and var_ of
feature 1 are NaN, not the observed-only statistics 6 and 0: the claimed
missing-value independence fails on the code. -/
theorem missing_value_independence_eval :
    (runBatches cfgStd exactExt freshScaler [obsBatch, missBatch]).1.n_samples_seen_ =
      some (Count.vector [3, 1]) ∧
    (runBatches cfgStd exactExt freshScaler [obsBatch, missBatch]).1.mean_ =
      some (PyArr.vec [RFloat.fin 3, RFloat.nan]) ∧
    (runBatches cfgStd exactExt freshScaler [obsBatch, missBatch]).1.var_ =
      some (PyArr.vec [RFloat.fin (8 / 3), RFloat.nan]) ∧
    exactNanmeanAt [[RFloat.fin 6]] 0 = RFloat.fin 6 ∧
    exactNanvarAt [[RFloat.fin 6]] 0 = RFloat.fin 0 ∧
    RFloat.nan ≠ RFloat.fin 6 ∧ RFloat.nan ≠ RFloat.fin 0 := by
  with_unfolding_all decide

/- Helper lemmas about the combiner output shape and partial_fit paths. -/

theorem imv_notNone (ext : Externals) (X : Batch) (e : ℚ) (r : RangeTy)
    (m v : PyArr) (cnt : List ℕ) (h : v ≠ PyArr.pynone) :
    incrementalMeanAndVar ext X e r m v cnt =
      ((List.range cnt.length).map (updatedMeanAt m cnt (ext.nanmean e r X) X),
       some ((List.range cnt.length).map
         (updatedVarAt m v cnt (ext.nanmean e r X) (ext.nanvar e r X) X)),
       (List.range cnt.length).map (updatedCountAt cnt X),
       [StatCall.meanCall e r, StatCall.varCall e r]) := by
  cases v with
  | pynone => exact absurd rfl h
  | scalar x => rfl
  | vec w => rfl

theorem imv_none (ext : Externals) (X : Batch) (e : ℚ) (r : RangeTy)
    (m : PyArr) (cnt : List ℕ) :
    incrementalMeanAndVar ext X e r m PyArr.pynone cnt =
      ((List.range cnt.length).map (updatedMeanAt m cnt (ext.nanmean e r X) X),
       none,
       (List.range cnt.length).map (updatedCountAt cnt X),
       [StatCall.meanCall e r]) := rfl

theorem imv_count (ext : Externals) (X : Batch) (e : ℚ) (r : RangeTy)
    (m v : PyArr) (cnt : List ℕ) :
    (incrementalMeanAndVar ext X e r m v cnt).2.2.1 =
      (List.range cnt.length).map (updatedCountAt cnt X) := by
  cases v <;> rfl

theorem initVar_notNone (cfg : Config) (st : ScalerState)
    (hstd : cfg.with_std = some true)
    (hst : st.scale_ = none ∨ ∃ w, st.var_ = some (PyArr.vec w)) :
    initVar cfg st ≠ PyArr.pynone := by
  rcases hst with hsc | ⟨w, hw⟩
  · simp [initVar, hsc, hstd]
  · by_cases hsc2 : st.scale_ = none
    · simp [initVar, hsc2, hstd]
    · simp [initVar, hsc2, hw]

theorem initVar_pynone (cfg : Config) (st : ScalerState)
    (hstd : cfg.with_std ≠ some true)
    (hQ : st.var_ = none ∨ st.var_ = some PyArr.pynone) :
    initVar cfg st = PyArr.pynone := by
  by_cases hsc : st.scale_ = none
  · simp [initVar, hsc, hstd]
  · rcases hQ with h | h <;> simp [initVar, hsc, h]

/-- On a call with variance tracking enabled (from a state that is either
fresh or holds a variance vector), the statistic source is invoked with
epsilon / 2 for the mean and then epsilon / 2 for the variance, and the
resulting scale_ is the zero-substituted square root of the resulting
var_ vector. -/
theorem partialFit_withStd_parts (cfg : Config) (ext : Externals)
    (st : ScalerState) (X : Batch) (hstd : cfg.with_std = some true)
    (hst : st.scale_ = none ∨ ∃ w, st.var_ = some (PyArr.vec w)) :
    (partialFit cfg ext st X).2 =
      [StatCall.meanCall (cfg.epsilon / 2) cfg.range,
       StatCall.varCall (cfg.epsilon / 2) cfg.range] ∧
    ∃ w, (partialFit cfg ext st X).1.var_ = some (PyArr.vec w) ∧
      (partialFit cfg ext st X).1.scale_ =
        some (PyArr.vec (w.map fun x => handleZerosInScale (ext.sqrt x))) := by
  have hv := initVar_notNone cfg st hstd hst
  have he : epsilon0 cfg = cfg.epsilon / 2 := by simp [epsilon0, hstd]
  simp [partialFit, hstd, imv_notNone ext X _ _ _ _ _ hv, he]

/-- On a call with variance tracking falsy (with_std None or False) and mean
tracking on, from a state whose var_ is absent or None, only the mean source
is invoked, with the allocated epsilon0, and var_ and scale_ end as None. -/
theorem partialFit_noStd_parts (cfg : Config) (ext : Externals)
    (st : ScalerState) (X : Batch) (hstd : cfg.with_std ≠ some true)
    (hm : cfg.with_mean = true)
    (hQ : st.var_ = none ∨ st.var_ = some PyArr.pynone) :
    (partialFit cfg ext st X).2 =
      [StatCall.meanCall (epsilon0 cfg) cfg.range] ∧
    (partialFit cfg ext st X).1.var_ = some PyArr.pynone ∧
    (partialFit cfg ext st X).1.scale_ = some PyArr.pynone := by
  have hv := initVar_pynone cfg st hstd hQ
  simp [partialFit, hstd, hm, hv, imv_none]

/-- Whenever with_std is falsy, scale_ is set to None, on either path and
from any state. -/
theorem partialFit_scale_pynone (cfg : Config) (ext : Externals)
    (st : ScalerState) (X : Batch) (hstd : cfg.with_std ≠ some true) :
    (partialFit cfg ext st X).1.scale_ = some PyArr.pynone := by
  rcases himv : incrementalMeanAndVar ext X (epsilon0 cfg) cfg.range
    (initMean st) (initVar cfg st) (normCount st (nFeatures X)) with
    ⟨um, uv, uc, calls⟩
  by_cases hm : cfg.with_mean = false
  · simp [partialFit, hm, hstd]
  · simp [partialFit, hm, hstd, himv]

/-- The expected invocation trace of n calls with variance tracking: one mean
call then one variance call per batch, each with the given budget. -/
def pairTrace (e : ℚ) (r : RangeTy) : ℕ → List StatCall
  | 0 => []
  | n + 1 => StatCall.meanCall e r :: StatCall.varCall e r :: pairTrace e r n

theorem runBatches_withStd (cfg : Config) (ext : Externals) (Xs : List Batch)
    (st : ScalerState) (hstd : cfg.with_std = some true)
    (hst : st.scale_ = none ∨ ∃ w, st.var_ = some (PyArr.vec w)) :
    (runBatches cfg ext st Xs).2 =
      pairTrace (cfg.epsilon / 2) cfg.range Xs.length := by
  induction Xs generalizing st with
  | nil => rfl
  | cons X Xs ih =>
      obtain ⟨htr, w, hvar, hscale⟩ := partialFit_withStd_parts cfg ext st X hstd hst
      simp [runBatches, htr, pairTrace,
        ih (partialFit cfg ext st X).1 (Or.inr ⟨w, hvar⟩)]

theorem runBatches_noStd_trace (cfg : Config) (ext : Externals) (Xs : List Batch)
    (st : ScalerState) (hstd : cfg.with_std ≠ some true)
    (hm : cfg.with_mean = true)
    (hQ : st.var_ = none ∨ st.var_ = some PyArr.pynone) :
    (runBatches cfg ext st Xs).2 =
      Xs.map (fun _ => StatCall.meanCall (epsilon0 cfg) cfg.range) := by
  induction Xs generalizing st with
  | nil => rfl
  | cons X Xs ih =>
      obtain ⟨htr, hvar, hscale⟩ := partialFit_noStd_parts cfg ext st X hstd hm hQ
      simp [runBatches, htr, ih (partialFit cfg ext st X).1 (Or.inr hvar)]

theorem runBatches_noStd_state (cfg : Config) (ext : Externals) (Xs : List Batch)
    (st : ScalerState) (hstd : cfg.with_std ≠ some true)
    (hm : cfg.with_mean = true)
    (hQ : st.var_ = none ∨ st.var_ = some PyArr.pynone) (hne : Xs ≠ []) :
    (runBatches cfg ext st Xs).1.var_ = some PyArr.pynone ∧
    (runBatches cfg ext st Xs).1.scale_ = some PyArr.pynone := by
  induction Xs generalizing st with
  | nil => exact absurd rfl hne
  | cons X Xs ih =>
      obtain ⟨htr, hvar, hscale⟩ := partialFit_noStd_parts cfg ext st X hstd hm hQ
      cases Xs with
      | nil => simpa [runBatches] using ⟨hvar, hscale⟩
      | cons Y Ys =>
          have := ih (partialFit cfg ext st X).1 (Or.inr hvar) (by simp)
          simpa [runBatches] using this

/-- C4: on every partial_fit call of an estimator with with_std = True, the
privatized mean is invoked with exactly half the declared epsilon and the
privatized variance with the complementary half (the two halves add back to
the declared epsilon exactly). -/
theorem epsilon_split_with_std (cfg : Config) (ext : Externals)
    (Xs : List Batch) (hstd : cfg.with_std = some true) :
    (runBatches cfg ext freshScaler Xs).2 =
      pairTrace (cfg.epsilon / 2) cfg.range Xs.length ∧
    cfg.epsilon / 2 + cfg.epsilon / 2 = cfg.epsilon :=
  ⟨runBatches_withStd cfg ext Xs freshScaler hstd (Or.inl rfl), by ring⟩

/-- C4 witness: one batch under with_std = True yields one mean call and one
variance call, each with epsilon / 2 = 1 / 2. -/
theorem epsilon_split_with_std_witness :
    (runBatches cfgStd exactExt freshScaler [obsBatch]).2 =
      pairTrace (cfgStd.epsilon / 2) cfgStd.range [obsBatch].length ∧
    cfgStd.epsilon / 2 + cfgStd.epsilon / 2 = cfgStd.epsilon :=
  epsilon_split_with_std cfgStd exactExt [obsBatch] rfl

/-- A concrete configuration with with_std = False. -/
def cfgNoStd : Config :=
  { epsilon := 1, range := none, copy := true, with_mean := true,
    with_std := some false }

/-- A concrete configuration with with_std left unset (None). -/
def cfgUnset : Config :=
  { epsilon := 1, range := none, copy := true, with_mean := true,
    with_std := none }

/-- C3 counterexample: with with_std = False and declared epsilon 1, the
privatized mean for the batch is invoked with epsilon 1 / 2, not with the
full declared epsilon 1. -/
theorem with_std_false_full_epsilon_counterexample :
    (partialFit cfgNoStd exactExt freshScaler [[RFloat.fin 1]]).2 =
      [StatCall.meanCall (1 / 2) none] ∧ ((1 : ℚ) / 2) ≠ 1 := by
  with_unfolding_all decide

/-- C3 amended: with with_std = False, every partial_fit call passes
epsilon / 2 to the privatized mean computation; the full declared epsilon is
passed only when with_std is None (line 156 compares with_std with None, not
with False). -/
theorem with_std_false_half_epsilon (cfg : Config) (ext : Externals)
    (Xs : List Batch) (hstd : cfg.with_std = some false)
    (hm : cfg.with_mean = true) :
    (runBatches cfg ext freshScaler Xs).2 =
      Xs.map (fun _ => StatCall.meanCall (cfg.epsilon / 2) cfg.range) := by
  have h1 : cfg.with_std ≠ some true := by simp [hstd]
  have h2 : epsilon0 cfg = cfg.epsilon / 2 := by simp [epsilon0, hstd]
  rw [runBatches_noStd_trace cfg ext Xs freshScaler h1 hm (Or.inl rfl), h2]

/-- C3 amended witness: one batch under with_std = False yields exactly one
mean call with epsilon / 2. -/
theorem with_std_false_half_epsilon_witness :
    (runBatches cfgNoStd exactExt freshScaler [obsBatch]).2 =
      [obsBatch].map (fun _ => StatCall.meanCall (cfgNoStd.epsilon / 2) cfgNoStd.range) :=
  with_std_false_half_epsilon cfgNoStd exactExt [obsBatch] rfl rfl

/-- C10: with with_std = None (unset), no variance is ever computed or
tracked: the trace holds one mean call per batch, each with the full
declared epsilon and no variance call, and after at least one batch var_
and scale_ are None; by contrast, with with_std = False the mean receives
only half the declared epsilon. -/
theorem with_std_none_full_epsilon (cfg cfg2 : Config) (ext ext2 : Externals)
    (Xs Ys : List Batch) (h1 : cfg.with_std = none) (hm1 : cfg.with_mean = true)
    (h2 : cfg2.with_std = some false) (hm2 : cfg2.with_mean = true) :
    (runBatches cfg ext freshScaler Xs).2 =
      Xs.map (fun _ => StatCall.meanCall cfg.epsilon cfg.range) ∧
    (Xs ≠ [] → (runBatches cfg ext freshScaler Xs).1.var_ = some PyArr.pynone ∧
      (runBatches cfg ext freshScaler Xs).1.scale_ = some PyArr.pynone) ∧
    (runBatches cfg2 ext2 freshScaler Ys).2 =
      Ys.map (fun _ => StatCall.meanCall (cfg2.epsilon / 2) cfg2.range) := by
  have ha : cfg.with_std ≠ some true := by simp [h1]
  have he : epsilon0 cfg = cfg.epsilon := by simp [epsilon0, h1]
  refine ⟨?_, ?_, with_std_false_half_epsilon cfg2 ext2 Ys h2 hm2⟩
  · rw [runBatches_noStd_trace cfg ext Xs freshScaler ha hm1 (Or.inl rfl), he]
  · exact runBatches_noStd_state cfg ext Xs freshScaler ha hm1 (Or.inl rfl)

/-- C10 witness: one batch with with_std = None gives a single mean call at
the full epsilon 1 and None variance and scale, while with_std = False gives
a single mean call at 1 / 2. -/
theorem with_std_none_full_epsilon_witness :
    (runBatches cfgUnset exactExt freshScaler [obsBatch]).2 =
      [obsBatch].map (fun _ => StatCall.meanCall cfgUnset.epsilon cfgUnset.range) ∧
    (([obsBatch] : List Batch) ≠ [] →
      (runBatches cfgUnset exactExt freshScaler [obsBatch]).1.var_ =
        some PyArr.pynone ∧
      (runBatches cfgUnset exactExt freshScaler [obsBatch]).1.scale_ =
        some PyArr.pynone) ∧
    (runBatches cfgNoStd exactExt freshScaler [missBatch]).2 =
      [missBatch].map (fun _ => StatCall.meanCall (cfgNoStd.epsilon / 2) cfgNoStd.range) :=
  with_std_none_full_epsilon cfgUnset cfgNoStd exactExt exactExt
    [obsBatch] [missBatch] rfl rfl rfl rfl

/-- C9: after a partial_fit call with with_std = True, scale_ is the
elementwise square root of the var_ vector with every zero entry replaced by
1 (handleZerosInScale composed with the external square root); after any
call with with_std falsy, scale_ is None. -/
theorem scale_sqrt_var (cfg : Config) (ext : Externals) (st : ScalerState)
    (X : Batch) (hstd : cfg.with_std = some true)
    (hst : st.scale_ = none ∨ ∃ w, st.var_ = some (PyArr.vec w)) :
    (∃ w, (partialFit cfg ext st X).1.var_ = some (PyArr.vec w) ∧
      (partialFit cfg ext st X).1.scale_ =
        some (PyArr.vec (w.map fun x => handleZerosInScale (ext.sqrt x)))) ∧
    (∀ cfg2 ext2 st2 X2, cfg2.with_std ≠ some true →
      (partialFit cfg2 ext2 st2 X2).1.scale_ = some PyArr.pynone) :=
  ⟨(partialFit_withStd_parts cfg ext st X hstd hst).2,
   fun cfg2 ext2 st2 X2 h => partialFit_scale_pynone cfg2 ext2 st2 X2 h⟩

/-- C9 witness: a concrete call with with_std = True, via the theorem. -/
theorem scale_sqrt_var_witness :
    (∃ w, (partialFit cfgStd exactExt freshScaler obsBatch).1.var_ =
        some (PyArr.vec w) ∧
      (partialFit cfgStd exactExt freshScaler obsBatch).1.scale_ =
        some (PyArr.vec (w.map fun x => handleZerosInScale (exactExt.sqrt x)))) ∧
    (∀ cfg2 ext2 st2 X2, cfg2.with_std ≠ some true →
      (partialFit cfg2 ext2 st2 X2).1.scale_ = some PyArr.pynone) :=
  scale_sqrt_var cfgStd exactExt freshScaler obsBatch rfl (Or.inl rfl)

theorem zipWith_add_replicate (nf a : ℕ) (l : List ℕ) (h : l.length = nf) :
    List.zipWith (fun x y => x + y) (List.replicate nf a) l =
      l.map (fun x => a + x) := by
  subst h
  induction l with
  | nil => rfl
  | cons x t ih => simp [List.replicate_succ, ih]

/-- After a call on a state holding a scalar prior count n, the new count
attribute is the collapse of the per-feature vector with entries
n + colCount X j: the scalar was broadcast, merged per feature, and reduced
again by the ptp test. -/
theorem partialFit_count (cfg : Config) (ext : Externals) (st : ScalerState)
    (X : Batch) (n : ℕ) (hn : st.n_samples_seen_ = some (Count.scalar n)) :
    (partialFit cfg ext st X).1.n_samples_seen_ =
      some (collapseCount ((List.range (nFeatures X)).map
        fun j => n + colCount X j)) := by
  have hnc : normCount st (nFeatures X) = List.replicate (nFeatures X) n := by
    simp [normCount, hn]
  by_cases hc : cfg.with_mean = false ∧ cfg.with_std ≠ some true
  · have hlist : List.zipWith (fun a b => a + b)
        (normCount st (nFeatures X))
        ((List.range (nFeatures X)).map fun j => X.length - nanRowCount X j) =
        (List.range (nFeatures X)).map fun j => n + colCount X j := by
      rw [hnc, zipWith_add_replicate (nFeatures X) n _ (by simp),
        List.map_map]
      apply List.map_congr_left
      intro j hj
      have hpart := colCount_add_nanRowCount X j
      simp only [Function.comp]
      omega
    simp [partialFit, hc, hlist]
  · rcases himv : incrementalMeanAndVar ext X (epsilon0 cfg) cfg.range
      (initMean st) (initVar cfg st) (normCount st (nFeatures X)) with
      ⟨um, uv, uc, calls⟩
    have huc : uc = (List.range (nFeatures X)).map fun j => n + colCount X j := by
      have h1 : (incrementalMeanAndVar ext X (epsilon0 cfg) cfg.range
          (initMean st) (initVar cfg st) (normCount st (nFeatures X))).2.2.1 =
          uc := by rw [himv]
      rw [imv_count, hnc, List.length_replicate] at h1
      rw [← h1]
      apply List.map_congr_left
      intro j hj
      have hjlt := List.mem_range.mp hj
      simp [updatedCountAt, List.getElem?_replicate, hjlt]
    simp [partialFit, hc, himv, huc]

/-- C8: on a partial_fit call from a state whose n_samples_seen_ is a scalar
n, the scalar is broadcast per feature and merged, giving per-feature counts
n + colCount X j; afterwards, if all features carry the identical count the
attribute is that scalar count, otherwise it is the per-feature vector with
those values. -/
theorem count_collapse (cfg : Config) (ext : Externals) (st : ScalerState)
    (X : Batch) (n : ℕ) (hn : st.n_samples_seen_ = some (Count.scalar n)) :
    ((∀ c ∈ (List.range (nFeatures X)).map (fun j => n + colCount X j),
        c = ((List.range (nFeatures X)).map
          (fun j => n + colCount X j)).headD 0) →
      (partialFit cfg ext st X).1.n_samples_seen_ =
        some (Count.scalar (((List.range (nFeatures X)).map
          (fun j => n + colCount X j)).headD 0))) ∧
    (¬(∀ c ∈ (List.range (nFeatures X)).map (fun j => n + colCount X j),
        c = ((List.range (nFeatures X)).map
          (fun j => n + colCount X j)).headD 0) →
      (partialFit cfg ext st X).1.n_samples_seen_ =
        some (Count.vector ((List.range (nFeatures X)).map
          (fun j => n + colCount X j)))) := by
  have hkey := partialFit_count cfg ext st X n hn
  constructor
  · intro hall
    rw [hkey]
    unfold collapseCount
    rw [if_pos (ptp_eq_zero_of_const _ _ hall)]
  · intro hnall
    rw [hkey]
    unfold collapseCount
    rw [if_neg (fun h0 => hnall (all_eq_of_ptp_eq_zero _ h0))]

/-- A concrete prior state holding a scalar count over two features. -/
def scalarState : ScalerState :=
  { n_samples_seen_ := some (Count.scalar 2),
    mean_ := some (PyArr.vec [RFloat.fin 1, RFloat.fin 2]),
    var_ := some (PyArr.vec [RFloat.fin 0, RFloat.fin 0]),
    scale_ := some (PyArr.vec [RFloat.fin 1, RFloat.fin 1]) }

/-- C8 witness: a batch with a missing entry in feature 1 diverges the
counts, via the theorem at a concrete input. -/
theorem count_collapse_witness :
    ((∀ c ∈ (List.range (nFeatures [[RFloat.fin 1, RFloat.nan]])).map
        (fun j => 2 + colCount [[RFloat.fin 1, RFloat.nan]] j),
        c = ((List.range (nFeatures [[RFloat.fin 1, RFloat.nan]])).map
          (fun j => 2 + colCount [[RFloat.fin 1, RFloat.nan]] j)).headD 0) →
      (partialFit cfgStd exactExt scalarState
          [[RFloat.fin 1, RFloat.nan]]).1.n_samples_seen_ =
        some (Count.scalar (((List.range (nFeatures [[RFloat.fin 1, RFloat.nan]])).map
          (fun j => 2 + colCount [[RFloat.fin 1, RFloat.nan]] j)).headD 0))) ∧
    (¬(∀ c ∈ (List.range (nFeatures [[RFloat.fin 1, RFloat.nan]])).map
        (fun j => 2 + colCount [[RFloat.fin 1, RFloat.nan]] j),
        c = ((List.range (nFeatures [[RFloat.fin 1, RFloat.nan]])).map
          (fun j => 2 + colCount [[RFloat.fin 1, RFloat.nan]] j)).headD 0) →
      (partialFit cfgStd exactExt scalarState
          [[RFloat.fin 1, RFloat.nan]]).1.n_samples_seen_ =
        some (Count.vector ((List.range (nFeatures [[RFloat.fin 1, RFloat.nan]])).map
          (fun j => 2 + colCount [[RFloat.fin 1, RFloat.nan]] j)))) :=
  count_collapse cfgStd exactExt scalarState [[RFloat.fin 1, RFloat.nan]] 2 rfl
